import Mathlib

/-!
Verification development for the Myanmar food image scraper
(`myanmar_food_scraper.py`).

The program is embedded shallowly: pure string manipulation
(`urllib.parse.urlparse` path extraction, `os.path.splitext`,
extension selection, URL filtering and deduplication) is translated to
executable Lean functions; the effectful parts (browser collection,
HTTP download, filesystem writes, driver lifecycle) are modelled by
explicit outcome parameters and explicit state threading.
-/

/-! ### Python string primitives -/

/-- Python `s.lower()` (ASCII-adequate model via `Char.toLower`). -/
def py_lower (s : String) : String := String.mk (s.data.map Char.toLower)

/-- Python `sub in s` (substring containment). -/
def py_contains (s sub : String) : Bool :=
  s.data.tails.any (fun t => sub.data.isPrefixOf t)

/-- Python `s.startswith(p)`. -/
def py_startswith (s p : String) : Bool := p.data.isPrefixOf s.data

/-- Split a character list at the first occurrence of `c`: returns the
part strictly before the first `c` and, when `c` occurs, the part
strictly after it. -/
def breakAtChar : List Char → Char → List Char × Option (List Char)
  | [], _ => ([], none)
  | x :: xs, c =>
      if x = c then ([], some xs)
      else
        let r := breakAtChar xs c
        (x :: r.1, r.2)

/-! ### `urllib.parse.urlparse(...).path`

Model of the scheme / netloc / fragment / query / params splitting that
CPython's `urlsplit` + `urlparse` perform, restricted to computing the
`path` component (the only component the scraper reads). -/

/-- Characters allowed in a URL scheme (`urllib.parse.scheme_chars`). -/
def scheme_chars : List Char :=
  String.data "abcdefghijklmnopqrstuvwxyzABCDEFGHIJKLMNOPQRSTUVWXYZ0123456789+-."

/-- CPython `urlsplit` scheme validity: nonempty, leading ASCII letter,
all characters drawn from `scheme_chars`. -/
def validScheme : List Char → Bool
  | [] => false
  | c :: cs => c.isAlpha && (c :: cs).all (fun x => decide (x ∈ scheme_chars))

/-- Split off `scheme:` when present and valid; returns
(lower-cased scheme, remainder). An invalid or absent scheme leaves the
input untouched and yields the empty scheme. -/
def schemeSplit (cs : List Char) : List Char × List Char :=
  match breakAtChar cs ':' with
  | (pre, some rest) =>
      if validScheme pre then (pre.map Char.toLower, rest) else ([], cs)
  | (_, none) => ([], cs)

/-- A character ending the netloc component (`/`, `?` or `#`). -/
def netDelim (c : Char) : Bool := c = '/' || c = '?' || c = '#'

/-- Drop `//netloc` when the remainder starts with `//`
(CPython `_splitnetloc`): the netloc extends to the first of `/?#`. -/
def netlocStage (cs : List Char) : List Char :=
  if cs.take 2 = ['/', '/'] then (cs.drop 2).dropWhile (fun c => !netDelim c)
  else cs

/-- Schemes for which `urlparse` splits `;params` off the path
(`urllib.parse.uses_params`). -/
def uses_params : List (List Char) :=
  [String.data "", String.data "ftp", String.data "hdl", String.data "prospero",
   String.data "http", String.data "imap", String.data "https", String.data "shttp",
   String.data "rtsp", String.data "rtspu", String.data "sip", String.data "sips",
   String.data "mms", String.data "sftp", String.data "tel"]

/-- CPython `_splitparams` applied by `urlparse` when the scheme uses
params and the path contains `;`: cut the path at the first `;` in its
last `/`-separated segment. -/
def paramsStage (scheme path : List Char) : List Char :=
  if scheme ∈ uses_params ∧ ';' ∈ path then
    if '/' ∈ path then
      match breakAtChar path.reverse '/' with
      | (tailRev, some preRev) =>
          match breakAtChar tailRev.reverse ';' with
          | (t1, some _) => preRev.reverse ++ '/' :: t1
          | (_, none) => path
      | (_, none) => path
    else (breakAtChar path ';').1
  else path

/-- `urlparse(url).path`: strip scheme, netloc, fragment, query and
params, in CPython's order. -/
def urlParsePath (url : String) : String :=
  let s := schemeSplit url.data
  let afterNet := netlocStage s.2
  let noFrag := (breakAtChar afterNet '#').1
  let path := (breakAtChar noFrag '?').1
  String.mk (paramsStage s.1 path)

/-! ### `os.path.splitext` (extension part, posixpath) -/

/-- The extension component of `posixpath.splitext`: the suffix from
the last `.`, provided no `/` follows it and the basename does not
consist solely of leading dots up to that point. -/
def splitextExt (p : String) : String :=
  match breakAtChar p.data.reverse '.' with
  | (_, none) => ""
  | (afterDotRev, some beforeDotRev) =>
      if '/' ∈ afterDotRev then ""
      else if ((breakAtChar beforeDotRev '/').1).any (fun c => !(c = '.')) then
        String.mk ('.' :: afterDotRev.reverse)
      else ""

/-! ### Scraper constants -/

/-- `self.base_folder`. -/
def base_folder : String := "Myanmar_Food_Images"

/-- `self.myanmar_foods`: the fixed 20-term catalog. -/
def myanmar_foods : List String :=
  ["mohinga", "laphet thoke", "shan noodles", "mont hin gar", "khow suey",
   "nga htamin", "mandalay mee shay", "ohn no khao swe", "kyet thar hin",
   "wet tha hin", "nga baung doke", "mont lone yay paw", "shwe yin aye",
   "faluda", "htamin thoke", "thoke sone", "dan bauk", "meeshay",
   "nan gyi thoke", "mont ti"]

/-- The extension allow-list of `scrape_food_images` (line 222),
exactly as written in the source: lower-case literals. -/
def allowed_extensions : List String := [".jpg", ".jpeg", ".png", ".webp"]

/-- Lines 217-223: extension derivation for one image URL.
`file_extension = os.path.splitext(urlparse(img_url).path)[1]`, then
default to `.jpg` when falsy or not in the allow-list. -/
def file_extension_for (img_url : String) : String :=
  let fe := splitextExt (urlParsePath img_url)
  if fe = "" ∨ ¬ fe ∈ allowed_extensions then ".jpg" else fe

/-! ### `get_image_urls` (lines 92-159) -/

/-- One `<img>` element as seen through `get_attribute`: `none` models
an absent attribute, `some ""` a present-but-empty one. -/
structure ImgElement where
  src : Option String
  data_src : Option String

/-- Python truthiness of a `str`-or-`None` value. -/
def truthyStr : Option String → Bool
  | none => false
  | some s => decide (s ≠ "")

/-- Python `src or data_src` on `str`-or-`None` values (line 144). -/
def pyOrStr (a b : Option String) : Option String := if truthyStr a then a else b

/-- Lines 139-149: the URL one element contributes, if any:
`url_to_use = src or data_src`; keep it when truthy, starting with
`http` and not starting with `data:`. -/
def candidate_of (img : ImgElement) : Option String :=
  match pyOrStr img.src img.data_src with
  | none => none
  | some u =>
      if truthyStr (some u) && py_startswith u "http" then
        if !(py_startswith u "data:") then some u else none
      else none

/-- The full extraction loop over all image elements. -/
def extract_urls (elems : List ImgElement) : List String :=
  elems.filterMap candidate_of

/-- Recursive core of `dict.fromkeys`-style deduplication: drop any URL
already seen, keep first occurrences in order. -/
def dedupAux (seen : List String) : List String → List String
  | [] => []
  | u :: rest =>
      if u ∈ seen then dedupAux seen rest
      else u :: dedupAux (u :: seen) rest

/-- Line 152: `list(dict.fromkeys(image_urls))` — order-preserving
deduplication. -/
def dict_fromkeys (l : List String) : List String := dedupAux [] l

/-- Outcome of the browser interaction of one collection pass: either
the page's image elements were enumerated, or some step
(navigation, scrolling, extraction) raised. -/
inductive CollectOutcome where
  | ok (elems : List ImgElement)
  | failure

/-- `get_image_urls` (lines 92-159): extraction + dedup on success, the
`except` clause returns `[]` on any error. -/
def get_image_urls (c : CollectOutcome) : List String :=
  match c with
  | .ok elems => dict_fromkeys (extract_urls elems)
  | .failure => []

/-! ### `download_image` (lines 161-192) -/

/-- An HTTP response: status, optional `content-type` header, body. -/
structure HttpResponse where
  status : Nat
  content_type : Option String
  body : List Nat

/-- Outcome of one `requests.get` + file write: either the request
raised (network error / timeout), or a response arrived — `writeOk`
records whether the subsequent file write would succeed. -/
inductive UrlOutcome where
  | netError
  | response (r : HttpResponse) (writeOk : Bool)

/-- The filesystem as an association list from path to byte content;
the most recent write for a path shadows older entries. -/
abbrev FileSystem := List (String × List Nat)

/-- Read a path's current content. -/
def fsRead (fs : FileSystem) (p : String) : Option (List Nat) :=
  match fs.find? (fun e => e.1 == p) with
  | some e => some e.2
  | none => none

/-- `open(file_path, 'wb')` + write: overwrite with the new content. -/
def fsWrite (fs : FileSystem) (p : String) (dat : List Nat) : FileSystem :=
  (p, dat) :: fs

/-- `download_image` (lines 161-192): `raise_for_status` (4xx/5xx →
caught → `False`), the case-insensitive `'image' in content_type`
check (absent header read as `""`), then the byte write; returns
whether a file was written, with the resulting filesystem. -/
def download_image (o : UrlOutcome) (fs : FileSystem) (file_path : String) :
    Bool × FileSystem :=
  match o with
  | .netError => (false, fs)
  | .response r writeOk =>
      if 400 ≤ r.status ∧ r.status < 600 then (false, fs)
      else
        let content_type := r.content_type.getD ""
        if !(py_contains (py_lower content_type) "image") then (false, fs)
        else if writeOk then (true, fsWrite fs file_path r.body)
        else (false, fs)

/-- Whether one download attempt returns `True`; the boolean result of
`download_image` does not depend on the filesystem or path. -/
def download_success (o : UrlOutcome) : Bool :=
  (download_image o [] "").1

/-! ### `scrape_food_images` (lines 194-237) -/

/-- Python `os.path.join` (posixpath, two arguments). -/
def os_path_join (a b : String) : String :=
  if py_startswith b "/" then b
  else if a = "" ∨ a.data.getLast? = some '/' then String.mk (a.data ++ b.data)
  else String.mk (a.data ++ '/' :: b.data)

/-- Observable filesystem state threaded through the orchestrator:
directories created so far and files on disk. -/
structure ScrapeState where
  folders : List String
  fs : FileSystem

/-- `create_folder` (lines 86-90): `os.makedirs(base/folder_name,
exist_ok=True)`; returns the folder path. -/
def create_folder (st : ScrapeState) (folder_name : String) :
    String × ScrapeState :=
  let folder_path := os_path_join base_folder folder_name
  (folder_path, { folders := st.folders ++ [folder_path], fs := st.fs })

/-- The download loop of `scrape_food_images` (lines 214-235):
`for i, img_url in enumerate(image_urls[:images_per_food])`, building
`{food}_{i+1}{ext}`, calling `download_image`, incrementing
`downloaded_count` on success only, continuing on failure.
`o i` is the outcome of fetching the `i`-th attempted URL. -/
def download_loop (food_name folder_path : String) :
    List String → Nat → (Nat → UrlOutcome) → Nat → FileSystem →
    Nat × FileSystem
  | [], _, _, count, fs => (count, fs)
  | img_url :: rest, i, o, count, fs =>
      let file_extension := file_extension_for img_url
      let file_name := food_name ++ "_" ++ toString (i + 1) ++ file_extension
      let file_path := os_path_join folder_path file_name
      let res := download_image (o i) fs file_path
      let count2 := if res.1 then count + 1 else count
      download_loop food_name folder_path rest (i + 1) o count2 res.2

/-- `scrape_food_images` (lines 194-237): create the folder, collect
URLs, return early when none, else run the download loop over the
first `images_per_food` URLs. Returns the new state and
`downloaded_count`. -/
def scrape_food_images (images_per_food : Nat) (food_name : String)
    (c : CollectOutcome) (o : Nat → UrlOutcome) (st : ScrapeState) :
    ScrapeState × Nat :=
  let fp := create_folder st food_name
  let image_urls := get_image_urls c
  if image_urls = [] then (fp.2, 0)
  else
    let res := download_loop food_name fp.1 (image_urls.take images_per_food)
      0 o 0 fp.2.fs
    ({ folders := fp.2.folders, fs := res.2 }, res.1)

/-! ### Driver lifecycle (`setup_driver`, `scrape_all_foods`,
`scrape_single_food`, lines 63-295), as an event-trace model -/

/-- Observable lifecycle events of one run. -/
inductive Ev where
  | openDriver
  | closeDriver
  | act (n : Nat)
deriving DecidableEq

/-- How the `try` body of a run ends. -/
inductive BodyEnd where
  | normal
  | interrupted
  | exn

/-- `setup_driver` (lines 63-84): on launch success `self.driver` is
set (one open event); on failure the exception is logged and re-raised
(`raise`), with no driver opened. Returns (events, error propagated). -/
def setup_driver (launchOk : Bool) : List Ev × Bool :=
  if launchOk then ([Ev.openDriver], false) else ([], true)

/-- `scrape_all_foods` (lines 239-269): `setup_driver` outside the
`try` (a launch failure propagates before any cleanup); the loop body
is guarded by `except KeyboardInterrupt` and `except Exception` (both
caught) and a `finally` that quits the driver when it was opened. -/
def scrape_all_foods (launchOk : Bool) (bodyEvents : List Ev)
    (bodyEnd : BodyEnd) : List Ev × Bool :=
  let s := setup_driver launchOk
  if s.2 then (s.1, true)
  else
    let handled :=
      match bodyEnd with
      | .normal => bodyEvents
      | .interrupted => bodyEvents
      | .exn => bodyEvents
    (s.1 ++ handled ++ [Ev.closeDriver], false)

/-- `scrape_single_food` (lines 271-295): same shape, but only
`except Exception` guards the body — a `KeyboardInterrupt` still runs
the `finally` (driver quit) and then propagates. -/
def scrape_single_food (launchOk : Bool) (bodyEvents : List Ev)
    (bodyEnd : BodyEnd) : List Ev × Bool :=
  let s := setup_driver launchOk
  if s.2 then (s.1, true)
  else
    let propagate :=
      match bodyEnd with
      | .normal => false
      | .interrupted => true
      | .exn => false
    (s.1 ++ bodyEvents ++ [Ev.closeDriver], propagate)

/-! ### Derived observers and spec-side definitions -/

/-- The body bytes carried by an outcome (empty for a network error). -/
def outcome_body : UrlOutcome → List Nat
  | .netError => []
  | .response r _ => r.body

/-- Second definition, following the amended specification's words:
the files a term's download loop leaves on disk are exactly one file
per successful attempt, named food, underscore, N, extension — with N the 1-based position
of that attempt among all attempted URLs (not among successes), holding
the response body. Listed in attempt order. -/
def spec_written_files (food folder : String) :
    List String → Nat → (Nat → UrlOutcome) → FileSystem
  | [], _, _ => []
  | u :: rest, i, o =>
      if download_success (o i) then
        (os_path_join folder (food ++ "_" ++ toString (i + 1) ++ file_extension_for u),
          outcome_body (o i)) :: spec_written_files food folder rest (i + 1) o
      else spec_written_files food folder rest (i + 1) o

/-- Relation between two character lists that agree on everything up to
a common prefix followed by `?`: either they are equal, or both are
`y ++ '?' :: suffix` with the same `y`. -/
def QRel (a b : List Char) : Prop :=
  a = b ∨ ∃ y s t, a = y ++ '?' :: s ∧ b = y ++ '?' :: t

/-- Five image elements for the concrete download scenario. -/
def demo_elems : List ImgElement :=
  [⟨some "http://h/a1.jpg", none⟩, ⟨some "http://h/a2.jpg", none⟩,
   ⟨some "http://h/a3.jpg", none⟩, ⟨some "http://h/a4.jpg", none⟩,
   ⟨some "http://h/a5.jpg", none⟩]

/-- Concrete outcomes: attempts 2 and 4 (0-based indices 1 and 3) fail
with a network error, the other three succeed. -/
def demo_outcomes : Nat → UrlOutcome :=
  fun i =>
    if i = 1 ∨ i = 3 then UrlOutcome.netError
    else UrlOutcome.response ⟨200, some "image/jpeg", [1]⟩ true

/-! ## Lemmas about the download model -/

theorem download_success_eq (r : HttpResponse) (w : Bool) :
    download_success (UrlOutcome.response r w)
      = (!decide (400 ≤ r.status ∧ r.status < 600)
          && py_contains (py_lower (r.content_type.getD "")) "image" && w) := by
  by_cases h1 : 400 ≤ r.status ∧ r.status < 600 <;>
    by_cases h2 : py_contains (py_lower (r.content_type.getD "")) "image" = true <;>
      cases w <;>
        simp [download_success, download_image, h1, h2]

theorem download_image_eq (o : UrlOutcome) (fs : FileSystem) (p : String) :
    download_image o fs p
      = (download_success o,
          if download_success o then fsWrite fs p (outcome_body o) else fs) := by
  cases o with
  | netError => simp [download_image, download_success]
  | response r w =>
      by_cases h1 : 400 ≤ r.status ∧ r.status < 600
      · simp [download_image, download_success, h1]
      · by_cases h2 : py_contains (py_lower (r.content_type.getD "")) "image" = true
        · cases w <;>
            simp [download_image, download_success, outcome_body, h1, h2]
        · simp [download_image, download_success, h1, h2]

theorem fsRead_fsWrite (fs : FileSystem) (p : String) (dat : List Nat) :
    fsRead (fsWrite fs p dat) p = some dat := by
  simp [fsRead, fsWrite, List.find?]

theorem download_loop_spec (food folder : String) (o : Nat → UrlOutcome)
    (urls : List String) :
    ∀ (i cnt : Nat) (fs : FileSystem),
      (download_loop food folder urls i o cnt fs).1
        = cnt + (List.range' i urls.length).countP (fun j => download_success (o j))
      ∧ (download_loop food folder urls i o cnt fs).2.length
        = fs.length
          + (List.range' i urls.length).countP (fun j => download_success (o j)) := by
  induction urls with
  | nil => intro i cnt fs; simp [download_loop]
  | cons u rest ih =>
      intro i cnt fs
      have hstep : download_loop food folder (u :: rest) i o cnt fs
          = download_loop food folder rest (i + 1) o
              (if download_success (o i) then cnt + 1 else cnt)
              (if download_success (o i) then
                fsWrite fs
                  (os_path_join folder
                    (food ++ "_" ++ toString (i + 1) ++ file_extension_for u))
                  (outcome_body (o i))
               else fs) := by
        simp only [download_loop, download_image_eq]
      rw [hstep, List.length_cons, List.range'_succ, List.countP_cons]
      cases hs : download_success (o i) with
      | true =>
          have h2 := ih (i + 1) (cnt + 1) (fsWrite fs
            (os_path_join folder
              (food ++ "_" ++ toString (i + 1) ++ file_extension_for u))
            (outcome_body (o i)))
          simp only [fsWrite, List.length_cons] at h2
          simp only [hs, if_true, fsWrite]
          rw [h2.1, h2.2]
          exact ⟨by omega, by omega⟩
      | false =>
          have h2 := ih (i + 1) cnt fs
          simp only [hs, Bool.false_eq_true, if_false]
          rw [h2.1, h2.2]
          exact ⟨by omega, by omega⟩

theorem download_loop_congr (food folder : String) (o o' : Nat → UrlOutcome)
    (urls : List String) :
    ∀ (i cnt : Nat) (fs : FileSystem),
      (∀ j, i ≤ j → j < i + urls.length → o j = o' j) →
      download_loop food folder urls i o cnt fs
        = download_loop food folder urls i o' cnt fs := by
  induction urls with
  | nil => intro i cnt fs _; simp [download_loop]
  | cons u rest ih =>
      intro i cnt fs h
      have hi : o i = o' i := by
        apply h i (Nat.le_refl i)
        simp only [List.length_cons]
        omega
      simp only [download_loop, hi]
      apply ih
      intro j h1 h2
      apply h j (by omega)
      simp only [List.length_cons]
      omega

theorem download_loop_fs (food folder : String) (o : Nat → UrlOutcome)
    (urls : List String) :
    ∀ (i cnt : Nat) (fs : FileSystem),
      (download_loop food folder urls i o cnt fs).2
        = (spec_written_files food folder urls i o).reverse ++ fs := by
  induction urls with
  | nil => intro i cnt fs; simp [download_loop, spec_written_files]
  | cons u rest ih =>
      intro i cnt fs
      have hstep : download_loop food folder (u :: rest) i o cnt fs
          = download_loop food folder rest (i + 1) o
              (if download_success (o i) then cnt + 1 else cnt)
              (if download_success (o i) then
                fsWrite fs
                  (os_path_join folder
                    (food ++ "_" ++ toString (i + 1) ++ file_extension_for u))
                  (outcome_body (o i))
               else fs) := by
        simp only [download_loop, download_image_eq]
      rw [hstep]
      cases hs : download_success (o i) with
      | true =>
          simp only [hs, if_true, spec_written_files, fsWrite]
          rw [ih]
          simp [List.append_assoc]
      | false =>
          simp only [hs, Bool.false_eq_true, if_false, spec_written_files]
          rw [ih]

/-! ## Claim theorems -/

/-- Claim C6: every error arising during URL collection or during a
single download is contained: `get_image_urls` returns `[]` on a
collection failure, `download_image` returns `false` (leaving the
filesystem unchanged) on a network/timeout error and on a write error,
and the download loop keeps processing the remaining URLs — the final
count equals the number of successful outcomes over all attempted
indices, however failures are interleaved. -/
theorem C6_errors_contained :
    get_image_urls CollectOutcome.failure = []
    ∧ (∀ (fs : FileSystem) (p : String),
        download_image UrlOutcome.netError fs p = (false, fs))
    ∧ (∀ (r : HttpResponse) (fs : FileSystem) (p : String),
        (download_image (UrlOutcome.response r false) fs p).1 = false)
    ∧ (∀ (r : HttpResponse) (w : Bool) (fs : FileSystem) (p : String),
        400 ≤ r.status → r.status < 600 →
        download_image (UrlOutcome.response r w) fs p = (false, fs))
    ∧ (∀ (k : Nat) (food : String) (c : CollectOutcome) (o : Nat → UrlOutcome)
        (st : ScrapeState),
        (scrape_food_images k food c o st).2
          = (List.range' 0 ((get_image_urls c).take k).length).countP
              (fun j => download_success (o j))) := by
  refine ⟨rfl, fun fs p => rfl, ?_, ?_, ?_⟩
  · intro r fs p
    rw [download_image_eq, download_success_eq]
    simp
  · intro r w fs p h1 h2
    rw [download_image_eq, download_success_eq]
    have hst : decide (400 ≤ r.status ∧ r.status < 600) = true :=
      decide_eq_true ⟨h1, h2⟩
    rw [hst]
    simp
  · intro k food c o st
    by_cases h : get_image_urls c = []
    · simp [scrape_food_images, h]
    · simp only [scrape_food_images, h, if_false]
      have hs := download_loop_spec food
        (create_folder st food).1 o ((get_image_urls c).take k) 0 0
        (create_folder st food).2.fs
      simp only [hs.1, Nat.zero_add]

theorem scrape_food_images_eq (k : Nat) (food : String) (c : CollectOutcome)
    (o : Nat → UrlOutcome) (st : ScrapeState)
    (hc : ¬ get_image_urls c = []) :
    scrape_food_images k food c o st
      = ({ folders := st.folders ++ [os_path_join base_folder food],
           fs := (download_loop food (os_path_join base_folder food)
                    ((get_image_urls c).take k) 0 o 0 st.fs).2 },
         (download_loop food (os_path_join base_folder food)
           ((get_image_urls c).take k) 0 o 0 st.fs).1) := by
  simp [scrape_food_images, create_folder, hc]

/-- Claim C4: `scrape_food_images` attempts, and therefore writes, at
most `min (collected URLs) images_per_food` files, and never consults
the outcome of any URL beyond the first `images_per_food` entries: the
whole result is unchanged when two outcome assignments agree on the
indices below that bound, the downloaded count is bounded by it, and
the number of files added to the filesystem equals the count. -/
theorem C4_download_bound :
    (∀ (k : Nat) (food : String) (c : CollectOutcome) (o o' : Nat → UrlOutcome)
        (st : ScrapeState),
      (∀ i, i < min (get_image_urls c).length k → o i = o' i) →
      scrape_food_images k food c o st = scrape_food_images k food c o' st)
    ∧ (∀ (k : Nat) (food : String) (c : CollectOutcome) (o : Nat → UrlOutcome)
        (st : ScrapeState),
      (scrape_food_images k food c o st).2 ≤ min (get_image_urls c).length k
      ∧ (scrape_food_images k food c o st).1.fs.length
          = st.fs.length + (scrape_food_images k food c o st).2) := by
  constructor
  · intro k food c o o' st h
    by_cases hc : get_image_urls c = []
    · simp [scrape_food_images, hc]
    · rw [scrape_food_images_eq k food c o st hc,
        scrape_food_images_eq k food c o' st hc,
        download_loop_congr food (os_path_join base_folder food) o o'
          ((get_image_urls c).take k) 0 0 st.fs]
      intro j h1 h2
      apply h
      rw [List.length_take] at h2
      omega
  · intro k food c o st
    by_cases hc : get_image_urls c = []
    · simp [scrape_food_images, create_folder, hc]
    · rw [scrape_food_images_eq k food c o st hc]
      have hs := download_loop_spec food (os_path_join base_folder food) o
        ((get_image_urls c).take k) 0 0 st.fs
      have hb : (List.range' 0 ((get_image_urls c).take k).length).countP
          (fun j => download_success (o j))
          ≤ ((get_image_urls c).take k).length := by
        have h1 : (List.range' 0 ((get_image_urls c).take k).length).countP
            (fun j => download_success (o j))
            ≤ (List.range' 0 ((get_image_urls c).take k).length).length :=
          List.countP_le_length _
        simpa using h1
      constructor
      · simp only [hs.1, Nat.zero_add]
        refine le_trans hb ?_
        rw [List.length_take, Nat.min_comm]
      · simp [hs.1, hs.2]

/-- Witness for C4: with two collected URLs, a target of one image per
food, and two outcome assignments agreeing on index 0, the results
agree, and the count/filesystem bounds hold at that input. -/
theorem C4_download_bound_witness :
    scrape_food_images 1 "mohinga"
        (CollectOutcome.ok [⟨some "http://a/b.png", none⟩, ⟨some "http://a/c.png", none⟩])
        (fun _ => UrlOutcome.netError) ⟨[], []⟩
      = scrape_food_images 1 "mohinga"
          (CollectOutcome.ok [⟨some "http://a/b.png", none⟩, ⟨some "http://a/c.png", none⟩])
          (fun i => if i = 0 then UrlOutcome.netError
            else UrlOutcome.response ⟨200, some "image/png", []⟩ true) ⟨[], []⟩
    ∧ (scrape_food_images 1 "mohinga"
        (CollectOutcome.ok [⟨some "http://a/b.png", none⟩, ⟨some "http://a/c.png", none⟩])
        (fun _ => UrlOutcome.netError) ⟨[], []⟩).2
        ≤ min (get_image_urls (CollectOutcome.ok
            [⟨some "http://a/b.png", none⟩, ⟨some "http://a/c.png", none⟩])).length 1 := by
  constructor
  · apply C4_download_bound.1
    intro i hi
    have hl : (get_image_urls (CollectOutcome.ok
        [⟨some "http://a/b.png", none⟩, ⟨some "http://a/c.png", none⟩])).length = 2 := by
      decide
    rw [hl] at hi
    have hi0 : i = 0 := by omega
    rw [hi0]
    simp
  · exact (C4_download_bound.2 1 "mohinga" _ _ _).1

/-- Claim C1 (counterexample to the claim as stated): for the term
"mohinga" with five attempted URLs of which exactly three succeed
(attempts 1, 3 and 5; attempts 2 and 4 fail), the files written are
mohinga_1.jpg, mohinga_3.jpg and mohinga_5.jpg — not
mohinga_1/2/3: mohinga_5.jpg exists and mohinga_2.jpg does not, so the
numeric suffix does not count only successful saves. -/
theorem C1_counterexample :
    (scrape_food_images 30 "mohinga" (CollectOutcome.ok demo_elems)
        demo_outcomes ⟨[], []⟩).2 = 3
    ∧ fsRead (scrape_food_images 30 "mohinga" (CollectOutcome.ok demo_elems)
        demo_outcomes ⟨[], []⟩).1.fs
        (os_path_join (os_path_join base_folder "mohinga") "mohinga_5.jpg")
        = some [1]
    ∧ fsRead (scrape_food_images 30 "mohinga" (CollectOutcome.ok demo_elems)
        demo_outcomes ⟨[], []⟩).1.fs
        (os_path_join (os_path_join base_folder "mohinga") "mohinga_2.jpg")
        = none
    ∧ fsRead (scrape_food_images 30 "mohinga" (CollectOutcome.ok demo_elems)
        demo_outcomes ⟨[], []⟩).1.fs
        (os_path_join (os_path_join base_folder "mohinga") "mohinga_1.jpg")
        = some [1]
    ∧ fsRead (scrape_food_images 30 "mohinga" (CollectOutcome.ok demo_elems)
        demo_outcomes ⟨[], []⟩).1.fs
        (os_path_join (os_path_join base_folder "mohinga") "mohinga_3.jpg")
        = some [1] := by
  decide

/-- Claim C1 (amended): the numeric suffix in each written filename
counts attempts, not successes: the files a term leaves on disk are
exactly one file per successful attempt, named with the 1-based
position of that attempt among all attempted URLs, as described by
`spec_written_files`. -/
theorem C1_attempt_indexed_names (k : Nat) (food : String)
    (c : CollectOutcome) (o : Nat → UrlOutcome) (st : ScrapeState) :
    (scrape_food_images k food c o st).1.fs
      = (spec_written_files food (os_path_join base_folder food)
          ((get_image_urls c).take k) 0 o).reverse ++ st.fs := by
  by_cases hc : get_image_urls c = []
  · simp [scrape_food_images, create_folder, hc, spec_written_files]
  · rw [scrape_food_images_eq k food c o st hc]
    exact download_loop_fs food (os_path_join base_folder food) o
      ((get_image_urls c).take k) 0 0 st.fs

/-- Claim C9: a term whose URL collection yields the empty sequence
returns normally with zero downloads, writes no files, and its
per-term folder is nevertheless created (the folder is created before
URL collection is consulted). -/
theorem C9_empty_collection (k : Nat) (food : String) (c : CollectOutcome)
    (o : Nat → UrlOutcome) (st : ScrapeState)
    (h : get_image_urls c = []) :
    scrape_food_images k food c o st
      = ({ folders := st.folders ++ [os_path_join base_folder food],
           fs := st.fs }, 0) := by
  simp [scrape_food_images, create_folder, h]

/-- Witness for C9: a failed collection pass for "mohinga" creates the
folder, writes nothing, and downloads zero images. -/
theorem C9_empty_collection_witness :
    scrape_food_images 30 "mohinga" CollectOutcome.failure
        (fun _ => UrlOutcome.netError) ⟨[], []⟩
      = ({ folders := [] ++ [os_path_join base_folder "mohinga"],
           fs := [] }, 0) :=
  C9_empty_collection 30 "mohinga" CollectOutcome.failure
    (fun _ => UrlOutcome.netError) ⟨[], []⟩ rfl

/-- Claim C5: when the response's content-type, lower-cased, does not
contain "image", `download_image` returns `false` and leaves the
filesystem unchanged; conversely a changed filesystem only arises from
a response that passed the content-type check, and the write leaves
the response body at the destination path, overwriting any previous
content. -/
theorem C5_content_type_gate :
    (∀ (r : HttpResponse) (w : Bool) (fs : FileSystem) (p : String),
      py_contains (py_lower (r.content_type.getD "")) "image" = false →
      download_image (UrlOutcome.response r w) fs p = (false, fs))
    ∧ (∀ (o : UrlOutcome) (fs : FileSystem) (p : String),
      (download_image o fs p).2 ≠ fs →
      ∃ r w, o = UrlOutcome.response r w
        ∧ py_contains (py_lower (r.content_type.getD "")) "image" = true
        ∧ fsRead (download_image o fs p).2 p = some r.body) := by
  constructor
  · intro r w fs p h
    rw [download_image_eq]
    have hs : download_success (UrlOutcome.response r w) = false := by
      rw [download_success_eq, h]
      simp
    rw [hs]
    simp
  · intro o fs p hne
    cases o with
    | netError => exact absurd rfl hne
    | response r w =>
        rw [download_image_eq] at hne ⊢
        cases hs : download_success (UrlOutcome.response r w) with
        | false => rw [hs] at hne; simp at hne
        | true =>
            refine ⟨r, w, rfl, ?_, ?_⟩
            · rw [download_success_eq] at hs
              have h2 := (Bool.and_eq_true _ _).mp hs
              exact ((Bool.and_eq_true _ _).mp h2.1).2
            · simp [outcome_body, fsRead_fsWrite]

/-- Witness for C5: a `text/html` response writes nothing and returns
false; an `image/png` response overwrites the existing file content at
the destination path with the response body. -/
theorem C5_content_type_gate_witness :
    download_image (UrlOutcome.response ⟨200, some "text/html", [7]⟩ true)
        [("d", [9])] "d" = (false, [("d", [9])])
    ∧ fsRead (download_image
        (UrlOutcome.response ⟨200, some "image/png", [7]⟩ true)
        [("d", [9])] "d").2 "d" = some [7] := by
  constructor
  · exact C5_content_type_gate.1 ⟨200, some "text/html", [7]⟩ true
      [("d", [9])] "d" (by decide)
  · obtain ⟨r, w, heq, _, hread⟩ := C5_content_type_gate.2
      (UrlOutcome.response ⟨200, some "image/png", [7]⟩ true)
      [("d", [9])] "d" (by decide)
    cases heq
    exact hread

/-- Claim C10: a response carrying no content-type header at all is
treated as a non-image response: `download_image` reads the absent
header as the empty string, returns `false` and writes nothing. -/
theorem C10_missing_header (r : HttpResponse) (w : Bool) (fs : FileSystem)
    (p : String) (h : r.content_type = none) :
    download_image (UrlOutcome.response r w) fs p = (false, fs) := by
  rw [download_image_eq]
  have hs : download_success (UrlOutcome.response r w) = false := by
    rw [download_success_eq, h]
    have hc : py_contains (py_lower (Option.getD none "")) "image" = false := by
      decide
    rw [hc]
    simp
  rw [hs]
  simp

/-- Witness for C10: a 200 response with body bytes but no
content-type header downloads nothing. -/
theorem C10_missing_header_witness :
    download_image (UrlOutcome.response ⟨200, none, [1, 2]⟩ true) [] "x"
      = (false, []) :=
  C10_missing_header ⟨200, none, [1, 2]⟩ true [] "x" rfl

/-- Claim C7: in `scrape_all_foods` and `scrape_single_food`, a
successfully opened browser session is closed exactly once on every
exit path (normal completion, caught exception, interrupt), and the
run's own error flag is not raised by the loop body in
`scrape_all_foods`; when the launch fails, the failure propagates with
no events at all — in particular no close. -/
theorem C7_close_exactly_once :
    (∀ (b : List Ev) (e : BodyEnd), b.count Ev.closeDriver = 0 →
      (scrape_all_foods true b e).1.count Ev.closeDriver = 1
      ∧ (scrape_all_foods true b e).2 = false
      ∧ (scrape_single_food true b e).1.count Ev.closeDriver = 1)
    ∧ (∀ (b : List Ev) (e : BodyEnd),
      scrape_all_foods false b e = ([], true)
      ∧ scrape_single_food false b e = ([], true)) := by
  constructor
  · intro b e h
    refine ⟨?_, ?_, ?_⟩
    · cases e <;>
        simp [scrape_all_foods, setup_driver, List.count_append, h,
          List.count_cons, List.count_nil]
    · cases e <;> simp [scrape_all_foods, setup_driver]
    · cases e <;>
        simp [scrape_single_food, setup_driver, List.count_append, h,
          List.count_cons, List.count_nil]
  · intro b e
    exact ⟨rfl, rfl⟩

/-- Witness for C7: a body with one ordinary action ending in a caught
exception closes the driver exactly once in both run variants. -/
theorem C7_close_exactly_once_witness :
    (scrape_all_foods true [Ev.act 0] BodyEnd.exn).1.count Ev.closeDriver = 1
    ∧ (scrape_all_foods true [Ev.act 0] BodyEnd.exn).2 = false
    ∧ (scrape_single_food true [Ev.act 0] BodyEnd.exn).1.count Ev.closeDriver
        = 1 :=
  C7_close_exactly_once.1 [Ev.act 0] BodyEnd.exn (by decide)

/-- Claim C8 (counterexample to the claim as stated): an element with
both attributes present — `src` present but empty, `data-src` a valid
image URL — contributes the `data-src` URL: the selected value is not
the `src` attribute's value, so the primary attribute is not always
selected when both are present (Python's `or` tests truthiness, not
presence). Under the claim's reading the element would contribute
nothing, since its `src` value is not an http URL. -/
theorem C8_counterexample :
    candidate_of ⟨some "", some "http://h/a.jpg"⟩ = some "http://h/a.jpg"
    ∧ (⟨some "", some "http://h/a.jpg"⟩ : ImgElement).src ≠ some "http://h/a.jpg"
    ∧ (⟨some "", some "http://h/a.jpg"⟩ : ImgElement).src ≠ none
    ∧ (⟨some "", some "http://h/a.jpg"⟩ : ImgElement).data_src ≠ none := by
  decide

/-- Claim C8 (amended): `get_image_urls` selects `src` whenever it is
present and non-empty (the fallback is then ignored entirely), treats
a present-but-empty `src` exactly like an absent one (falling back to
`data-src`), and an element with neither attribute contributes
nothing. -/
theorem C8_amended_selection :
    (∀ (u : String) (d : Option String), u ≠ "" →
      pyOrStr (some u) d = some u)
    ∧ (∀ d : Option String, pyOrStr none d = d)
    ∧ (∀ (u : String) (d : Option String), u ≠ "" →
      candidate_of ⟨some u, d⟩ = candidate_of ⟨some u, none⟩)
    ∧ (∀ d : Option String, candidate_of ⟨some "", d⟩ = candidate_of ⟨none, d⟩)
    ∧ candidate_of ⟨none, none⟩ = none := by
  refine ⟨?_, ?_, ?_, ?_, rfl⟩
  · intro u d h
    simp [pyOrStr, truthyStr, h]
  · intro d
    simp [pyOrStr, truthyStr]
  · intro u d h
    simp [candidate_of, pyOrStr, truthyStr, h]
  · intro d
    simp [candidate_of, pyOrStr, truthyStr]

/-- Witness for C8: with a non-empty `src` and a decoy `data-src`, the
candidate is the `src` URL, exactly as with no `data-src` at all. -/
theorem C8_amended_selection_witness :
    pyOrStr (some "http://h/s.jpg") (some "http://h/d.jpg")
      = some "http://h/s.jpg"
    ∧ candidate_of ⟨some "http://h/s.jpg", some "http://h/d.jpg"⟩
        = candidate_of ⟨some "http://h/s.jpg", none⟩ :=
  ⟨C8_amended_selection.1 "http://h/s.jpg" (some "http://h/d.jpg") (by decide),
   C8_amended_selection.2.2.1 "http://h/s.jpg" (some "http://h/d.jpg")
     (by decide)⟩

/-! ## Lemmas about deduplication -/

theorem mem_dedupAux (l : List String) :
    ∀ (seen : List String) (x : String),
      x ∈ dedupAux seen l ↔ x ∈ l ∧ x ∉ seen := by
  induction l with
  | nil => intro seen x; simp [dedupAux]
  | cons u rest ih =>
      intro seen x
      by_cases hu : u ∈ seen
      · rw [show dedupAux seen (u :: rest) = dedupAux seen rest from by
          simp [dedupAux, hu]]
        rw [ih seen x]
        constructor
        · rintro ⟨h1, h2⟩
          exact ⟨List.mem_cons_of_mem u h1, h2⟩
        · rintro ⟨h1, h2⟩
          rcases List.mem_cons.mp h1 with h3 | h3
          · exact absurd (h3 ▸ hu) h2
          · exact ⟨h3, h2⟩
      · rw [show dedupAux seen (u :: rest) = u :: dedupAux (u :: seen) rest
          from by simp [dedupAux, hu]]
        simp only [List.mem_cons, ih (u :: seen) x, not_or]
        constructor
        · rintro (h1 | ⟨h1, h2, h3⟩)
          · exact ⟨Or.inl h1, h1 ▸ hu⟩
          · exact ⟨Or.inr h1, h3⟩
        · rintro ⟨h1 | h1, h2⟩
          · exact Or.inl h1
          · by_cases hxu : x = u
            · exact Or.inl hxu
            · exact Or.inr ⟨h1, hxu, h2⟩

theorem nodup_dedupAux (l : List String) :
    ∀ seen : List String, (dedupAux seen l).Nodup := by
  induction l with
  | nil => intro seen; simp [dedupAux]
  | cons u rest ih =>
      intro seen
      by_cases hu : u ∈ seen
      · simpa [dedupAux, hu] using ih seen
      · rw [show dedupAux seen (u :: rest) = u :: dedupAux (u :: seen) rest
          from by simp [dedupAux, hu]]
        refine List.Nodup.cons ?_ (ih (u :: seen))
        intro hmem
        exact ((mem_dedupAux rest (u :: seen) u).mp hmem).2
          (List.mem_cons_self u seen)

theorem sublist_dedupAux (l : List String) :
    ∀ seen : List String, List.Sublist (dedupAux seen l) l := by
  induction l with
  | nil => intro seen; simp [dedupAux]
  | cons u rest ih =>
      intro seen
      by_cases hu : u ∈ seen
      · rw [show dedupAux seen (u :: rest) = dedupAux seen rest from by
          simp [dedupAux, hu]]
        exact (ih seen).cons u
      · rw [show dedupAux seen (u :: rest) = u :: dedupAux (u :: seen) rest
          from by simp [dedupAux, hu]]
        exact (ih (u :: seen)).cons₂ u

theorem dedupAux_eq_self (l : List String) :
    ∀ seen : List String, l.Nodup → (∀ x ∈ l, x ∉ seen) →
      dedupAux seen l = l := by
  induction l with
  | nil => intro seen _ _; rfl
  | cons u rest ih =>
      intro seen hnd hdis
      have hu : u ∉ seen := hdis u (List.mem_cons_self u rest)
      rw [show dedupAux seen (u :: rest) = u :: dedupAux (u :: seen) rest
        from by simp [dedupAux, hu]]
      congr 1
      apply ih (u :: seen) (List.Nodup.of_cons hnd)
      intro x hx hmem
      rcases List.mem_cons.mp hmem with h1 | h1
      · exact (List.Nodup.not_mem hnd) (h1 ▸ hx)
      · exact hdis x (List.mem_cons_of_mem u hx) h1

theorem indexOf_dedupAux (l : List String) :
    ∀ (seen : List String) (x y : String), x ≠ y →
      x ∈ dedupAux seen l → y ∈ dedupAux seen l →
      ((dedupAux seen l).indexOf x < (dedupAux seen l).indexOf y
        ↔ l.indexOf x < l.indexOf y) := by
  induction l with
  | nil => intro seen x y _ hx _; simp [dedupAux] at hx
  | cons u rest ih =>
      intro seen x y hxy hx hy
      by_cases hu : u ∈ seen
      · have hd : dedupAux seen (u :: rest) = dedupAux seen rest := by
          simp [dedupAux, hu]
        rw [hd] at hx hy ⊢
        have hxs := (mem_dedupAux rest seen x).mp hx
        have hys := (mem_dedupAux rest seen y).mp hy
        have hxu : u ≠ x := fun h => hxs.2 (h ▸ hu)
        have hyu : u ≠ y := fun h => hys.2 (h ▸ hu)
        rw [List.indexOf_cons_ne rest hxu, List.indexOf_cons_ne rest hyu]
        rw [ih seen x y hxy hx hy]
        omega
      · have hd : dedupAux seen (u :: rest) = u :: dedupAux (u :: seen) rest := by
          simp [dedupAux, hu]
        rw [hd] at hx hy ⊢
        by_cases hxu : x = u
        · have hyu : u ≠ y := fun h => hxy (hxu.trans h)
          have hy2 : y ∈ dedupAux (u :: seen) rest := by
            rcases List.mem_cons.mp hy with h1 | h1
            · exact absurd h1.symm hyu
            · exact h1
          have hyr : y ∈ rest := ((mem_dedupAux rest (u :: seen) y).mp hy2).1
          rw [hxu]
          rw [List.indexOf_cons_self, List.indexOf_cons_self,
            List.indexOf_cons_ne (dedupAux (u :: seen) rest) hyu,
            List.indexOf_cons_ne rest hyu]
          omega
        · have hxu' : u ≠ x := fun h => hxu h.symm
          have hx2 : x ∈ dedupAux (u :: seen) rest := by
            rcases List.mem_cons.mp hx with h1 | h1
            · exact absurd h1 hxu
            · exact h1
          by_cases hyu : y = u
          · rw [hyu]
            rw [List.indexOf_cons_self, List.indexOf_cons_self,
              List.indexOf_cons_ne (dedupAux (u :: seen) rest) hxu',
              List.indexOf_cons_ne rest hxu']
            omega
          · have hyu' : u ≠ y := fun h => hyu h.symm
            have hy2 : y ∈ dedupAux (u :: seen) rest := by
              rcases List.mem_cons.mp hy with h1 | h1
              · exact absurd h1 hyu
              · exact h1
            rw [List.indexOf_cons_ne (dedupAux (u :: seen) rest) hxu',
              List.indexOf_cons_ne (dedupAux (u :: seen) rest) hyu',
              List.indexOf_cons_ne rest hxu', List.indexOf_cons_ne rest hyu']
            rw [Nat.succ_lt_succ_iff, Nat.succ_lt_succ_iff]
            exact ih (u :: seen) x y hxy hx2 hy2

/-- Claim C3: the deduplication step of `get_image_urls` returns a
subsequence of its input (order preserved) with no URL twice, keeps
exactly the input's URLs, is idempotent, and preserves the order of
first appearance: two distinct retained URLs compare in the output
exactly as their first occurrences compare in the input. -/
theorem C3_dedup_first_seen :
    (∀ elems : List ImgElement,
      get_image_urls (CollectOutcome.ok elems)
        = dict_fromkeys (extract_urls elems))
    ∧ (∀ l : List String, List.Sublist (dict_fromkeys l) l)
    ∧ (∀ l : List String, (dict_fromkeys l).Nodup)
    ∧ (∀ l : List String, dict_fromkeys (dict_fromkeys l) = dict_fromkeys l)
    ∧ (∀ (l : List String) (x : String), x ∈ dict_fromkeys l ↔ x ∈ l)
    ∧ (∀ (l : List String) (x y : String), x ≠ y →
        x ∈ dict_fromkeys l → y ∈ dict_fromkeys l →
        ((dict_fromkeys l).indexOf x < (dict_fromkeys l).indexOf y
          ↔ l.indexOf x < l.indexOf y)) := by
  refine ⟨fun _ => rfl, ?_, ?_, ?_, ?_, ?_⟩
  · intro l
    exact sublist_dedupAux l []
  · intro l
    exact nodup_dedupAux l []
  · intro l
    exact dedupAux_eq_self (dict_fromkeys l) [] (nodup_dedupAux l [])
      (fun x _ hx => List.not_mem_nil x hx)
  · intro l x
    rw [show dict_fromkeys l = dedupAux [] l from rfl, mem_dedupAux l [] x]
    simp
  · intro l x y hxy hx hy
    exact indexOf_dedupAux l [] x y hxy hx hy

/-- Witness for C3: on a concrete list with a repeated URL, two
retained URLs compare in the deduplicated output as their first
occurrences compare in the input. -/
theorem C3_dedup_first_seen_witness :
    (dict_fromkeys ["b", "a", "b", "c"]).indexOf "a"
        < (dict_fromkeys ["b", "a", "b", "c"]).indexOf "c"
      ↔ (["b", "a", "b", "c"] : List String).indexOf "a"
        < (["b", "a", "b", "c"] : List String).indexOf "c" :=
  C3_dedup_first_seen.2.2.2.2.2 ["b", "a", "b", "c"] "a" "c"
    (by decide) (by decide) (by decide)

/-! ## Lemmas about URL parsing: the query string never reaches the
path component -/

theorem breakAtChar_append_of_not_mem {c : Char} {x : List Char}
    (h : c ∉ x) (z : List Char) :
    breakAtChar (x ++ z) c
      = (x ++ (breakAtChar z c).1, (breakAtChar z c).2) := by
  induction x with
  | nil => simp
  | cons a as ih =>
      have ha : a ≠ c := fun e => h (e ▸ List.mem_cons_self a as)
      have h2 : c ∉ as := fun m => h (List.mem_cons_of_mem a m)
      simp [breakAtChar, ha, ih h2]

theorem breakAtChar_append_of_mem {c : Char} {x : List Char}
    (h : c ∈ x) (z : List Char) :
    breakAtChar (x ++ z) c
      = ((breakAtChar x c).1,
          ((breakAtChar x c).2).map (fun t => t ++ z)) := by
  induction x with
  | nil => cases h
  | cons a as ih =>
      by_cases ha : a = c
      · subst ha
        simp [breakAtChar]
      · have h2 : c ∈ as := by
          rcases List.mem_cons.mp h with h3 | h3
          · exact absurd h3.symm ha
          · exact h3
        simp [breakAtChar, ha, ih h2]

theorem breakAtChar_snd_eq_none {x : List Char} {c : Char} :
    (breakAtChar x c).2 = none ↔ c ∉ x := by
  induction x with
  | nil => simp [breakAtChar]
  | cons a as ih =>
      by_cases ha : a = c
      · subst ha
        simp [breakAtChar]
      · have ha2 : c ≠ a := fun e => ha e.symm
        simp [breakAtChar, ha, ih, ha2]

theorem breakAtChar_qmark_cons (c : Char) (h : c ≠ '?') (s : List Char) :
    breakAtChar ('?' :: s) c
      = ('?' :: (breakAtChar s c).1, (breakAtChar s c).2) := by
  have h2 : ¬ ('?' = c) := fun e => h e.symm
  simp [breakAtChar, h2]

theorem validScheme_false_of_qmark {l : List Char} (h : '?' ∈ l) :
    validScheme l = false := by
  cases l with
  | nil => rfl
  | cons c cs =>
      have hall : (c :: cs).all (fun x => decide (x ∈ scheme_chars)) = false := by
        by_cases hA : (c :: cs).all (fun x => decide (x ∈ scheme_chars)) = true
        · have h2 := List.all_eq_true.mp hA '?' h
          have h3 : '?' ∉ scheme_chars := by decide
          exact absurd (of_decide_eq_true h2) h3
        · exact Bool.not_eq_true _ ▸ (Bool.eq_false_iff.mpr hA)
      simp [validScheme, hall]

theorem schemeSplit_of_not_colon (x r : List Char) (hc : ':' ∉ x) :
    schemeSplit (x ++ '?' :: r) = ([], x ++ '?' :: r) := by
  have hb : breakAtChar (x ++ '?' :: r) ':'
      = (x ++ '?' :: (breakAtChar r ':').1, (breakAtChar r ':').2) := by
    rw [breakAtChar_append_of_not_mem hc,
      breakAtChar_qmark_cons ':' (by decide) r]
  have hq : '?' ∈ x ++ '?' :: (breakAtChar r ':').1 :=
    List.mem_append_right _ (List.mem_cons_self _ _)
  unfold schemeSplit
  rw [hb]
  cases hsnd : (breakAtChar r ':').2 with
  | none => rfl
  | some u => simp [validScheme_false_of_qmark hq]

theorem schemeSplit_qrel (x r t : List Char) :
    (schemeSplit (x ++ '?' :: r)).1 = (schemeSplit (x ++ '?' :: t)).1
    ∧ QRel (schemeSplit (x ++ '?' :: r)).2 (schemeSplit (x ++ '?' :: t)).2 := by
  by_cases hc : ':' ∈ x
  · cases hsnd : (breakAtChar x ':').2 with
    | none => exact absurd hc (breakAtChar_snd_eq_none.mp hsnd)
    | some restx =>
        have hbr : breakAtChar (x ++ '?' :: r) ':'
            = ((breakAtChar x ':').1, some (restx ++ '?' :: r)) := by
          rw [breakAtChar_append_of_mem hc, hsnd]
          rfl
        have hbt : breakAtChar (x ++ '?' :: t) ':'
            = ((breakAtChar x ':').1, some (restx ++ '?' :: t)) := by
          rw [breakAtChar_append_of_mem hc, hsnd]
          rfl
        unfold schemeSplit
        rw [hbr, hbt]
        by_cases hv : validScheme (breakAtChar x ':').1 = true
        · simp only [hv, if_true]
          exact ⟨by trivial, Or.inr ⟨restx, r, t, rfl, rfl⟩⟩
        · simp only [Bool.not_eq_true] at hv
          simp only [hv, Bool.false_eq_true, if_false]
          exact ⟨by trivial, Or.inr ⟨x, r, t, rfl, rfl⟩⟩
  · rw [schemeSplit_of_not_colon x r hc, schemeSplit_of_not_colon x t hc]
    exact ⟨rfl, Or.inr ⟨x, r, t, rfl, rfl⟩⟩

theorem take_two_qmark_head (s : List Char) :
    ('?' :: s).take 2 ≠ ['/', '/'] := by
  intro h
  rw [List.take_succ_cons] at h
  injection h with h1 _
  exact absurd h1 (by decide)

theorem take_two_cons_qmark (c : Char) (s : List Char) :
    (c :: '?' :: s).take 2 ≠ ['/', '/'] := by
  intro h
  rw [List.take_succ_cons, List.take_succ_cons] at h
  injection h with h1 h2
  injection h2 with h2 _
  exact absurd h2 (by decide)

theorem dropWhile_append_qmark (p : Char → Bool) (hp : p '?' = false)
    (a : List Char) : ∀ s : List Char,
    List.dropWhile p (a ++ '?' :: s)
      = if a.all p then '?' :: s else List.dropWhile p a ++ '?' :: s := by
  induction a with
  | nil => intro s; simp [List.dropWhile, hp]
  | cons c csa ih =>
      intro s
      by_cases hc : p c = true
      · simp [List.dropWhile_cons, hc, ih, List.all_cons]
      · simp [List.dropWhile_cons, hc, List.all_cons]

theorem netlocStage_qrel {a b : List Char} (h : QRel a b) :
    QRel (netlocStage a) (netlocStage b) := by
  rcases h with rfl | ⟨y, s, t, rfl, rfl⟩
  · exact Or.inl rfl
  · match y with
    | [] =>
        unfold netlocStage
        rw [List.nil_append, List.nil_append,
          if_neg (take_two_qmark_head s), if_neg (take_two_qmark_head t)]
        exact Or.inr ⟨[], s, t, rfl, rfl⟩
    | [c] =>
        unfold netlocStage
        rw [List.cons_append, List.nil_append, List.cons_append,
          List.nil_append,
          if_neg (take_two_cons_qmark c s), if_neg (take_two_cons_qmark c t)]
        exact Or.inr ⟨[c], s, t, rfl, rfl⟩
    | c :: d :: ys =>
        have htake : ∀ z : List Char, ((c :: d :: ys) ++ '?' :: z).take 2
            = [c, d] := by
          intro z
          rw [List.cons_append, List.cons_append, List.take_succ_cons,
            List.take_succ_cons, List.take_zero]
        by_cases hcd : ([c, d] : List Char) = ['/', '/']
        · unfold netlocStage
          rw [htake s, htake t, if_pos hcd, if_pos hcd]
          have hdrop : ∀ z : List Char,
              (((c :: d :: ys) ++ '?' :: z).drop 2) = ys ++ '?' :: z := by
            intro z
            rw [List.cons_append, List.cons_append, List.drop_succ_cons,
              List.drop_succ_cons, List.drop_zero]
          rw [hdrop s, hdrop t,
            dropWhile_append_qmark (fun ch => !netDelim ch) (by decide) ys s,
            dropWhile_append_qmark (fun ch => !netDelim ch) (by decide) ys t]
          by_cases hall : ys.all (fun ch => !netDelim ch) = true
          · rw [if_pos hall, if_pos hall]
            exact Or.inr ⟨[], s, t, rfl, rfl⟩
          · rw [if_neg hall, if_neg hall]
            exact Or.inr ⟨List.dropWhile (fun ch => !netDelim ch) ys, s, t,
              rfl, rfl⟩
        · unfold netlocStage
          rw [htake s, htake t, if_neg hcd, if_neg hcd]
          exact Or.inr ⟨c :: d :: ys, s, t, rfl, rfl⟩

theorem fragmentStage_qrel {a b : List Char} (h : QRel a b) :
    QRel (breakAtChar a '#').1 (breakAtChar b '#').1 := by
  rcases h with rfl | ⟨y, s, t, rfl, rfl⟩
  · exact Or.inl rfl
  · by_cases hm : '#' ∈ y
    · rw [breakAtChar_append_of_mem hm, breakAtChar_append_of_mem hm]
      exact Or.inl rfl
    · rw [breakAtChar_append_of_not_mem hm, breakAtChar_append_of_not_mem hm,
        breakAtChar_qmark_cons '#' (by decide) s,
        breakAtChar_qmark_cons '#' (by decide) t]
      exact Or.inr ⟨y, (breakAtChar s '#').1, (breakAtChar t '#').1, rfl, rfl⟩

theorem queryStage_of_qrel {a b : List Char} (h : QRel a b) :
    (breakAtChar a '?').1 = (breakAtChar b '?').1 := by
  rcases h with rfl | ⟨y, s, t, rfl, rfl⟩
  · rfl
  · by_cases hm : '?' ∈ y
    · rw [breakAtChar_append_of_mem hm, breakAtChar_append_of_mem hm]
    · rw [breakAtChar_append_of_not_mem hm, breakAtChar_append_of_not_mem hm]
      simp [breakAtChar]

theorem urlParsePath_qrel (x r t : List Char) :
    urlParsePath (String.mk (x ++ '?' :: r))
      = urlParsePath (String.mk (x ++ '?' :: t)) := by
  have h1 := schemeSplit_qrel x r t
  have h4 := queryStage_of_qrel (fragmentStage_qrel (netlocStage_qrel h1.2))
  show String.mk (paramsStage (schemeSplit (x ++ '?' :: r)).1
      (breakAtChar
        (breakAtChar (netlocStage (schemeSplit (x ++ '?' :: r)).2) '#').1
        '?').1)
    = String.mk (paramsStage (schemeSplit (x ++ '?' :: t)).1
      (breakAtChar
        (breakAtChar (netlocStage (schemeSplit (x ++ '?' :: t)).2) '#').1
        '?').1)
  rw [h1.1, h4]

theorem urlParsePath_query_ignored (p q q' : String) :
    urlParsePath (p ++ "?" ++ q) = urlParsePath (p ++ "?" ++ q') := by
  have hd : ∀ z : String, p ++ "?" ++ z = String.mk (p.data ++ '?' :: z.data) := by
    intro z
    apply String.ext
    rw [String.data_append, String.data_append]
    show p.data ++ ['?'] ++ z.data = p.data ++ '?' :: z.data
    rw [List.append_assoc]
    rfl
  rw [hd q, hd q']
  exact urlParsePath_qrel p.data q.data q'.data

/-- Claim C2 (counterexample to the claim as stated): the URL path
suffix `.PNG` matches the allow-list case-insensitively, yet the
extension used is the default `.jpg`, not `.PNG` or `.png`: the
allow-list membership test of line 222 is case-sensitive. -/
theorem C2_counterexample :
    splitextExt (urlParsePath "http://example.com/photo.PNG?x=1") = ".PNG"
    ∧ py_lower ".PNG" = ".png"
    ∧ ".png" ∈ allowed_extensions
    ∧ file_extension_for "http://example.com/photo.PNG?x=1" = ".jpg"
    ∧ (".jpg" : String) ≠ ".PNG"
    ∧ (".jpg" : String) ≠ ".png" := by
  decide

/-- Claim C2 (amended): the extension used for the saved file is the
URL path's suffix exactly when that suffix is (case-sensitively) one
of the four lower-case allow-list entries, and the default `.jpg`
otherwise — in particular when the path has no suffix, or the suffix
matches only up to case; the query string never contributes: replacing
everything after a `?` changes neither the parsed path nor the chosen
extension. -/
theorem C2_extension_amended :
    (∀ u : String, splitextExt (urlParsePath u) ∈ allowed_extensions →
      file_extension_for u = splitextExt (urlParsePath u))
    ∧ (∀ u : String, splitextExt (urlParsePath u) ∉ allowed_extensions →
      file_extension_for u = ".jpg")
    ∧ (∀ p q q' : String, urlParsePath (p ++ "?" ++ q)
        = urlParsePath (p ++ "?" ++ q'))
    ∧ (∀ p q q' : String, file_extension_for (p ++ "?" ++ q)
        = file_extension_for (p ++ "?" ++ q')) := by
  refine ⟨?_, ?_, urlParsePath_query_ignored, ?_⟩
  · intro u h
    have hne : splitextExt (urlParsePath u) ≠ "" := by
      intro he
      rw [he] at h
      exact absurd h (by decide)
    simp [file_extension_for, h, hne]
  · intro u h
    simp [file_extension_for, h]
  · intro p q q'
    simp only [file_extension_for]
    rw [urlParsePath_query_ignored p q q']

/-- Witness for C2: a lower-case `.png` suffix is kept, an unlisted
`.gif` suffix falls back to `.jpg`, and a decoy extension inside the
query string is ignored. -/
theorem C2_extension_amended_witness :
    file_extension_for "http://a/b.png" = ".png"
    ∧ file_extension_for "http://a/b.gif" = ".jpg"
    ∧ urlParsePath ("http://a/b.png" ++ "?" ++ "x=.webp")
        = urlParsePath ("http://a/b.png" ++ "?" ++ "") := by
  refine ⟨?_, ?_, ?_⟩
  · exact (C2_extension_amended.1 "http://a/b.png" (by decide)).trans (by decide)
  · exact C2_extension_amended.2.1 "http://a/b.gif" (by decide)
  · exact C2_extension_amended.2.2.1 "http://a/b.png" "x=.webp" ""

/-- Witness for C6: a 404 response with an image content type still
downloads nothing and leaves the filesystem unchanged. -/
theorem C6_errors_contained_witness :
    download_image (UrlOutcome.response ⟨404, some "image/png", [1]⟩ true)
      [] "p" = (false, []) :=
  C6_errors_contained.2.2.2.1 ⟨404, some "image/png", [1]⟩ true [] "p"
    (by decide) (by decide)
